import Mathlib

/-!
Shallow embedding of the gaze-controlled voxel sandbox core
(`src/components/GameScene.tsx` together with the shared types module).

Conventions of the embedding:
* JS `number` values that the logic treats as reals (timestamps, pointer
  coordinates, face-normal components, avatar positions) are `ℚ`;
  block coordinates are `ℤ` (the data model declares them integers).
* `Math.round` is `jsRound q = ⌊q + 1/2⌋` (floor of q + 0.5, exactly the
  JS semantics of rounding halves toward +∞).
* The JS inventory object `{[key]: number}` with the `(inv[t] || 0)` read
  idiom is a total function `BlockType → ℕ` (missing key = 0).
* The per-frame interaction section of `animate` (lines 463-487) is the
  step function `dwellStep`; one timestamp `now` stands for the
  `performance.now()` calls made inside a single frame.
* `Math.sin`/`Math.cos` of the avatar rotation are supplied to the
  locomotion step as inputs (`sinNextRot`, `cosNextRot`), since only the
  products with the speed constant matter to the claims.
-/

namespace GazeCraft

/-- Block materials, from the shared types module (`BlockType`). -/
inductive BlockType : Type
  | AIR | GRASS | DIRT | STONE | WOOD | LEAVES | SAND | WATER
  | COAL_ORE | DIAMOND_ORE | BEDROCK | PLANK | BRICK | GLASS
  | FLOWER | SNOW | SANDSTONE
deriving DecidableEq, Repr

/-- A placed block (`BlockData`): stable id, material, integer coordinates. -/
structure BlockData : Type where
  id : String
  type : BlockType
  x : ℤ
  y : ℤ
  z : ℤ
deriving DecidableEq, Repr

/-- The two interaction modes (`GameMode`). -/
inductive GameMode : Type
  | MINE | BUILD
deriving DecidableEq, Repr

/-- Inventory: material ↦ count, with absent keys read as 0. -/
def Inventory : Type := BlockType → ℕ

/-- Process-wide configuration (`GameSettings`). -/
structure GameSettings : Type where
  dwellTime : ℚ
  cursorSize : ℚ
  highContrast : Bool
  moveSpeed : ℚ
  turnSpeed : ℚ
deriving DecidableEq, Repr

/-- JS `Math.round`: floor of the argument plus one half. -/
def jsRound (q : ℚ) : ℤ := ⌊q + 1/2⌋

/-- The membership test `['AIR', 'FLOWER', 'WATER'].includes(b.type)`
used by `getTerrainHeightAt` to skip non-solid materials. -/
def isNonSolid (t : BlockType) : Bool :=
  match t with
  | .AIR | .FLOWER | .WATER => true
  | _ => false

/-- Body of the `for (const b of blocks)` loop of `getTerrainHeightAt`:
if the block sits in the rounded column and is solid and higher than the
running maximum, it becomes the new maximum. -/
def terrainScanStep (rx rz : ℤ) (maxY : ℤ) (b : BlockData) : ℤ :=
  if b.x = rx ∧ b.z = rz then
    if ¬ isNonSolid b.type then
      if maxY < b.y then b.y else maxY
    else maxY
  else maxY

/-- `getTerrainHeightAt(x, z, blocks)` (GameScene.tsx lines 329-342):
round the query point, scan all blocks, return the running maximum
started at the sentinel −10. -/
def getTerrainHeightAt (x z : ℚ) (blocks : List BlockData) : ℤ :=
  blocks.foldl (terrainScanStep (jsRound x) (jsRound z)) (-10)

/-- A face normal as delivered by the raycaster (`hit.face?.normal`). -/
abbrev FaceN : Type := ℚ × ℚ × ℚ

/-- `performAction(index, hit)` (GameScene.tsx lines 497-531), as a pure
function from the data it reads (block list, inventory, mode, selected
material, the stored face normal, and the fresh id minted for a placed
block) to the updated block list and inventory. -/
def performAction (mode : GameMode) (blocks : List BlockData) (inv : Inventory)
    (selected : BlockType) (faceNormal : Option FaceN) (index : ℕ)
    (newId : String) : List BlockData × Inventory :=
  match blocks[index]? with
  | none => (blocks, inv)
  | some targetBlock =>
    match mode with
    | .MINE =>
      if targetBlock.type = .BEDROCK then (blocks, inv)
      else
        (blocks.eraseIdx index,
         fun t => if t = targetBlock.type then inv targetBlock.type + 1 else inv t)
    | .BUILD =>
      match faceNormal with
      | none => (blocks, inv)
      | some n =>
        let newX := jsRound ((targetBlock.x : ℚ) + n.1)
        let newY := jsRound ((targetBlock.y : ℚ) + n.2.1)
        let newZ := jsRound ((targetBlock.z : ℚ) + n.2.2)
        (blocks ++ [⟨newId, selected, newX, newY, newZ⟩], inv)

/-- The mutable interaction record (`interactionRef.current`):
target index, dwell start timestamp, and the face normal captured from
the raycaster hit, each nullable. -/
structure InteractionState : Type where
  targetId : Option ℕ
  startTime : Option ℚ
  faceNormal : Option FaceN
deriving DecidableEq, Repr

/-- One frame's gaze input: the timestamp of this frame's
`performance.now()` calls, and the nearest raycast hit — `none` when
`intersects` is empty, otherwise the hit's `instanceId` (itself possibly
undefined) and `hit.face?.normal || null`. -/
structure GazeFrame : Type where
  now : ℚ
  hit : Option (Option ℕ × Option FaceN)
deriving DecidableEq, Repr

/-- Result of one pass through the interaction section of `animate`:
the updated interaction record, the `onHoverChange(isHovering, progress)`
calls made this frame in order, and `some i` when `performAction(i, hit)`
was invoked this frame. -/
structure DwellOut : Type where
  state : InteractionState
  reports : List (Bool × ℚ)
  fired : Option ℕ
deriving DecidableEq, Repr

/-- JS truthiness of `interactionRef.current.startTime`
(`null` and `0` are falsy). -/
def startTimeTruthy : Option ℚ → Bool
  | none => false
  | some st => st ≠ 0

/-- The interaction section of `animate` (GameScene.tsx lines 463-487),
per frame.  On a hit with a valid instance index: acquire the target if
its identity changed (fresh timer, fresh face normal), then — when the
timer is truthy — report progress `min(elapsed / dwell, 1)`, and on
progress ≥ 1 fire the action, restart the timer at `now`, and report
`(false, 0)`.  On a hit with an undefined or stale index nothing happens;
on no hit the target and timer are cleared and `(false, 0)` is reported. -/
def dwellStep (blocksLen : ℕ) (dwell : ℚ) (f : GazeFrame)
    (s : InteractionState) : DwellOut :=
  match f.hit with
  | none => ⟨⟨none, none, s.faceNormal⟩, [(false, 0)], none⟩
  | some (instId, hitNormal) =>
    match instId with
    | none => ⟨s, [], none⟩
    | some i =>
      if i < blocksLen then
        let s1 : InteractionState :=
          if s.targetId ≠ some i then ⟨some i, some f.now, hitNormal⟩ else s
        if startTimeTruthy s1.startTime then
          match s1.startTime with
          | some st =>
            let elapsed := f.now - st
            let progress := min (elapsed / dwell) 1
            if 1 ≤ progress then
              ⟨⟨s1.targetId, some f.now, s1.faceNormal⟩,
               [(true, progress), (false, 0)], some i⟩
            else
              ⟨s1, [(true, progress)], none⟩
          | none => ⟨s1, [], none⟩
        else ⟨s1, [], none⟩
      else ⟨s, [], none⟩

/-- Run the interaction section over a list of frames, each paired with
the block-list length current at that frame (mutations between frames
change it).  Returns the final interaction record and the timestamps of
the frames at which the action fired. -/
def runDwell (dwell : ℚ) (s : InteractionState) :
    List (ℕ × GazeFrame) → InteractionState × List ℚ
  | [] => (s, [])
  | (len, f) :: rest =>
    let out := dwellStep len dwell f s
    let r := runDwell dwell out.state rest
    (r.1, (match out.fired with | some _ => [f.now] | none => []) ++ r.2)

/-- Run the interaction section over a list of frames, collecting each
frame's `onHoverChange` call list. -/
def runReports (dwell : ℚ) (s : InteractionState) :
    List (ℕ × GazeFrame) → List (List (Bool × ℚ))
  | [] => []
  | (len, f) :: rest =>
    (dwellStep len dwell f s).reports ::
      runReports dwell (dwellStep len dwell f s).state rest

/-- The hardcoded per-frame walk speed (GameScene.tsx line 373:
`const speed = 0.04`). -/
def speed : ℚ := 4/100

/-- The hardcoded per-frame rotation rate (GameScene.tsx line 374:
`const rotSpeed = 0.008`). -/
def rotSpeed : ℚ := 8/1000

/-- The per-frame rotation change from the edge turn zones
(GameScene.tsx lines 380-389).  `zoneSize = screenW * 0.2`; inside the
left zone the rate is `rotSpeed * (0.5 + intensity * 0.5)` with
`intensity = 1 - mx/zoneSize`, inside the right zone the mirrored
negative rate, and zero in the central band. -/
def turnDelta (screenW mx : ℚ) : ℚ :=
  let zoneSize := screenW * (2/10)
  if mx < zoneSize then
    rotSpeed * (1/2 + (1 - mx / zoneSize) * (1/2))
  else if screenW - zoneSize < mx then
    -(rotSpeed * (1/2 + ((mx - (screenW - zoneSize)) / zoneSize) * (1/2)))
  else 0

/-- The position/rotation part of the locomotion update (GameScene.tsx
lines 372-394): rotation accumulates `turnDelta`; when walking the
position advances by `speed` along the facing direction, whose sine and
cosine are supplied by the math library as `sinNextRot`, `cosNextRot`.
The settings object is passed to witness what the update does (and does
not) read from it. -/
def locomotionStep (settings : GameSettings) (screenW mx : ℚ)
    (pos : ℚ × ℚ) (rot : ℚ) (isWalking : Bool)
    (sinNextRot cosNextRot : ℚ) : (ℚ × ℚ) × ℚ :=
  let nextRot := rot + turnDelta screenW mx
  let nextPos :=
    if isWalking then
      (pos.1 + sinNextRot * speed, pos.2 + cosNextRot * speed)
    else pos
  (nextPos, nextRot)

/-- The clamped ground height of the vertical update (GameScene.tsx
lines 410-414): −10 when the block list is empty, otherwise
`getTerrainHeightAt`, then clamped below by 1. -/
def clampedGroundY (x z : ℚ) (blocks : List BlockData) : ℤ :=
  let groundY : ℤ := if 0 < blocks.length then getTerrainHeightAt x z blocks else -10
  if groundY < 1 then 1 else groundY

/-- `targetY = groundY + 1.0` (GameScene.tsx line 415): the clamped
ground height plus the eye offset. -/
def targetYOf (x z : ℚ) (blocks : List BlockData) : ℚ :=
  (clampedGroundY x z blocks : ℚ) + 1

/-- One tick of the vertical integrator (GameScene.tsx lines 417-423):
ascend by 0.2 clamped not to overshoot, or descend by 0.1 clamped not to
undershoot. -/
def vstep (targetY y : ℚ) : ℚ :=
  if y < targetY then
    (if targetY < y + 2/10 then targetY else y + 2/10)
  else if targetY < y then
    (if y - 1/10 < targetY then targetY else y - 1/10)
  else y

/-- The blocks of the column at the rounded query point whose material
counts as solid — the blocks `getTerrainHeightAt` ranges over. -/
def columnSolids (x z : ℚ) (blocks : List BlockData) : List BlockData :=
  blocks.filter fun b =>
    decide (b.x = jsRound x) && decide (b.z = jsRound z) && ! isNonSolid b.type

/-! ### Helper lemmas -/

theorem jsRound_intCast_add (x : ℤ) (n : ℚ) : jsRound ((x : ℚ) + n) = x + jsRound n := by
  unfold jsRound
  have : (x : ℚ) + n + 1/2 = n + 1/2 + (x : ℚ) := by ring
  rw [this, Int.floor_add_int]
  ring

theorem getElem?_of_length_le {l : List BlockData} {i : ℕ} (h : l.length ≤ i) :
    l[i]? = none :=
  List.getElem?_eq_none h

/-! ### C1, C2, C10 — ActionExecutor -/

/-- Claim C1: firing in MINE mode on a resolved target block of
non-indestructible type removes exactly that block (world size drops by
one) and increments the inventory count of its type by exactly one,
leaving other counts unchanged; on a BEDROCK target both world and
inventory are left unchanged. -/
theorem mine_semantics (blocks : List BlockData) (inv : Inventory) (index : ℕ)
    (b : BlockData) (selected : BlockType) (fn : Option FaceN) (newId : String)
    (hb : blocks[index]? = some b) :
    (b.type ≠ .BEDROCK →
      performAction .MINE blocks inv selected fn index newId =
        (blocks.eraseIdx index,
         fun t => if t = b.type then inv b.type + 1 else inv t) ∧
      (performAction .MINE blocks inv selected fn index newId).1.length + 1 =
        blocks.length ∧
      (performAction .MINE blocks inv selected fn index newId).2 b.type =
        inv b.type + 1 ∧
      ∀ t, t ≠ b.type →
        (performAction .MINE blocks inv selected fn index newId).2 t = inv t) ∧
    (b.type = .BEDROCK →
      performAction .MINE blocks inv selected fn index newId = (blocks, inv)) := by
  have hidx : index < blocks.length := by
    by_contra h
    rw [getElem?_of_length_le (le_of_not_lt h)] at hb
    exact Option.noConfusion hb
  constructor
  · intro hbt
    have heq : performAction .MINE blocks inv selected fn index newId =
        (blocks.eraseIdx index,
         fun t => if t = b.type then inv b.type + 1 else inv t) := by
      simp [performAction, hb, hbt]
    refine ⟨heq, ?_, ?_, ?_⟩
    · rw [heq]
      exact List.length_eraseIdx_add_one hidx
    · rw [heq]
      simp
    · intro t ht
      rw [heq]
      simp [ht]
  · intro hbt
    simp [performAction, hb, hbt]

/-- Concrete instantiation of the MINE-mode theorem: mining the GRASS
block at index 1 of a two-block world removes it and bumps the GRASS
count from 2 to 3; mining BEDROCK is settled by the other conjunct. -/
theorem mine_semantics_witness :
    performAction .MINE
        [⟨("base"), .BEDROCK, 0, 0, 0⟩, ⟨("g"), .GRASS, 0, 1, 0⟩]
        (fun _ => 2) .WOOD none 1 ("n") =
      ([⟨("base"), .BEDROCK, 0, 0, 0⟩],
       fun t => if t = BlockType.GRASS then 2 + 1 else 2) := by
  have h := (mine_semantics
      [⟨("base"), .BEDROCK, 0, 0, 0⟩, ⟨("g"), .GRASS, 0, 1, 0⟩]
      (fun _ => 2) 1 ⟨("g"), .GRASS, 0, 1, 0⟩ .WOOD none ("n") (by rfl)).1
      (by simp)
  exact h.1

/-- Claim C2: firing in BUILD mode on a resolved target block with a
known face normal appends a block of the selected material at the
target's integer coordinates offset by the rounded normal components,
grows the world by exactly one block, and leaves the inventory
unchanged; with an absent face normal the action is a no-op. -/
theorem build_semantics (blocks : List BlockData) (inv : Inventory) (index : ℕ)
    (b : BlockData) (nx ny nz : ℚ) (selected : BlockType) (newId : String)
    (hb : blocks[index]? = some b) :
    performAction .BUILD blocks inv selected (some (nx, ny, nz)) index newId =
      (blocks ++
        [⟨newId, selected, b.x + jsRound nx, b.y + jsRound ny, b.z + jsRound nz⟩],
       inv) ∧
    (performAction .BUILD blocks inv selected (some (nx, ny, nz)) index newId).1.length =
      blocks.length + 1 ∧
    performAction .BUILD blocks inv selected none index newId = (blocks, inv) := by
  have heq : performAction .BUILD blocks inv selected (some (nx, ny, nz)) index newId =
      (blocks ++
        [⟨newId, selected, b.x + jsRound nx, b.y + jsRound ny, b.z + jsRound nz⟩],
       inv) := by
    simp only [performAction, hb]
    rw [jsRound_intCast_add, jsRound_intCast_add, jsRound_intCast_add]
  refine ⟨heq, ?_, ?_⟩
  · rw [heq]
    simp
  · simp only [performAction, hb]

/-- Concrete instantiation of the BUILD-mode theorem: building WOOD
against the block at (0,1,0) with upward face normal (0,1,0) appends a
WOOD block at (0,2,0) and leaves the inventory value untouched. -/
theorem build_semantics_witness :
    performAction .BUILD [⟨("g"), .GRASS, 0, 1, 0⟩] (fun _ => 7) .WOOD
        (some (0, 1, 0)) 0 ("n") =
      ([⟨("g"), .GRASS, 0, 1, 0⟩, ⟨("n"), .WOOD, 0, 2, 0⟩], fun _ => 7) := by
  have h := (build_semantics [⟨("g"), .GRASS, 0, 1, 0⟩] (fun _ => 7) 0
      ⟨("g"), .GRASS, 0, 1, 0⟩ 0 1 0 .WOOD ("n") (by rfl)).1
  rw [h]
  norm_num [jsRound]

/-- Claim C10: executing the action with a target index that has no
corresponding block in the current world sequence is a total no-op in
either mode: the block list and the inventory are returned unchanged. -/
theorem stale_index_noop (mode : GameMode) (blocks : List BlockData)
    (inv : Inventory) (selected : BlockType) (fn : Option FaceN) (index : ℕ)
    (newId : String) (h : blocks.length ≤ index) :
    performAction mode blocks inv selected fn index newId = (blocks, inv) := by
  simp only [performAction, getElem?_of_length_le h]

/-- Concrete instantiation of the stale-index theorem: index 5 into a
one-block world, in both modes. -/
theorem stale_index_noop_witness :
    performAction .MINE [⟨("g"), .GRASS, 0, 1, 0⟩] (fun _ => 0) .WOOD none 5 ("n") =
      ([⟨("g"), .GRASS, 0, 1, 0⟩], fun _ => 0) ∧
    performAction .BUILD [⟨("g"), .GRASS, 0, 1, 0⟩] (fun _ => 0) .WOOD
        (some (0, 1, 0)) 5 ("n") =
      ([⟨("g"), .GRASS, 0, 1, 0⟩], fun _ => 0) :=
  ⟨stale_index_noop .MINE _ _ _ _ 5 ("n") (by norm_num),
   stale_index_noop .BUILD _ _ _ _ 5 ("n") (by norm_num)⟩

/-! ### C5 — heightAt -/

theorem terrainScanStep_eq_max (rx rz : ℤ) (m : ℤ) (b : BlockData) :
    terrainScanStep rx rz m b =
      if decide (b.x = rx) && decide (b.z = rz) && ! isNonSolid b.type then
        max m b.y
      else m := by
  unfold terrainScanStep
  by_cases hx : b.x = rx <;> by_cases hz : b.z = rz <;>
    by_cases hs : isNonSolid b.type <;>
      simp [hx, hz, hs, max_def] <;> omega

theorem terrain_foldl_filter (rx rz : ℤ) :
    ∀ (l : List BlockData) (m : ℤ),
      l.foldl (terrainScanStep rx rz) m =
        (l.filter fun b =>
            decide (b.x = rx) && decide (b.z = rz) && ! isNonSolid b.type).foldl
          (fun a b => max a b.y) m := by
  intro l
  induction l with
  | nil => intro m; rfl
  | cons b l ih =>
    intro m
    rw [List.foldl_cons, terrainScanStep_eq_max, List.filter_cons]
    by_cases hc : (decide (b.x = rx) && decide (b.z = rz) && ! isNonSolid b.type) = true
    · rw [if_pos hc, if_pos hc, List.foldl_cons, ih]
    · rw [if_neg hc, if_neg hc, ih]

theorem foldl_max_init_le :
    ∀ (l : List BlockData) (m : ℤ), m ≤ l.foldl (fun a b => max a b.y) m := by
  intro l
  induction l with
  | nil => intro m; exact le_refl m
  | cons b l ih =>
    intro m
    rw [List.foldl_cons]
    exact le_trans (le_max_left m b.y) (ih (max m b.y))

theorem foldl_max_mem_le :
    ∀ (l : List BlockData) (m : ℤ) (b : BlockData), b ∈ l →
      b.y ≤ l.foldl (fun a c => max a c.y) m := by
  intro l
  induction l with
  | nil => intro m b hb; exact absurd hb (List.not_mem_nil b)
  | cons c l ih =>
    intro m b hb
    rw [List.foldl_cons]
    rcases List.mem_cons.mp hb with h | h
    · subst h
      exact le_trans (le_max_right m b.y) (foldl_max_init_le l _)
    · exact ih _ b h

theorem foldl_max_attained :
    ∀ (l : List BlockData) (m : ℤ),
      l.foldl (fun a b => max a b.y) m = m ∨
        ∃ b ∈ l, l.foldl (fun a b => max a b.y) m = b.y := by
  intro l
  induction l with
  | nil => intro m; exact Or.inl rfl
  | cons c l ih =>
    intro m
    rw [List.foldl_cons]
    rcases ih (max m c.y) with h | ⟨b, hb, h⟩
    · rcases max_cases m c.y with ⟨he, _⟩ | ⟨he, _⟩
      · exact Or.inl (by rw [h, he])
      · exact Or.inr ⟨c, List.mem_cons_self c l, by rw [h, he]⟩
    · exact Or.inr ⟨b, List.mem_cons_of_mem c hb, h⟩

/-- Claim C5, counterexample: a column whose only solid block sits at
y = −15 (below the sentinel −10).  The column is non-empty, its solid
maximum is −15, yet `getTerrainHeightAt` returns the sentinel −10, so
the claim's "returns the maximum y among solid column blocks" fails at
this input. -/
theorem heightAt_cex :
    columnSolids 0 0 [⟨("a"), .GRASS, 0, -15, 0⟩] = [⟨("a"), .GRASS, 0, -15, 0⟩] ∧
    getTerrainHeightAt 0 0 [⟨("a"), .GRASS, 0, -15, 0⟩] = -10 ∧
    getTerrainHeightAt 0 0 [⟨("a"), .GRASS, 0, -15, 0⟩] ≠
      (⟨("a"), .GRASS, 0, -15, 0⟩ : BlockData).y := by
  refine ⟨?_, ?_, ?_⟩
  · norm_num [columnSolids, jsRound, isNonSolid]
  · norm_num [getTerrainHeightAt, terrainScanStep, jsRound, isNonSolid]
  · norm_num [getTerrainHeightAt, terrainScanStep, jsRound, isNonSolid]

/-- Claim C5 as amended: over an empty column (no solid block at the
rounded query coordinates) the query returns the sentinel −10; in
general it returns the maximum of −10 and the y values of the solid
column blocks — every solid column block's y is a lower bound of the
result, the result is at least −10, and the result is either −10 or
attained by a solid column block.  (Solid blocks at y ≤ −10 are masked
by the sentinel, the one correction to the original claim.) -/
theorem heightAt_sentinel_or_max (x z : ℚ) (blocks : List BlockData) :
    getTerrainHeightAt x z blocks =
      (columnSolids x z blocks).foldl (fun a b => max a b.y) (-10) ∧
    (columnSolids x z blocks = [] → getTerrainHeightAt x z blocks = -10) ∧
    (∀ b ∈ columnSolids x z blocks, b.y ≤ getTerrainHeightAt x z blocks) ∧
    -10 ≤ getTerrainHeightAt x z blocks ∧
    (getTerrainHeightAt x z blocks = -10 ∨
      ∃ b ∈ columnSolids x z blocks, getTerrainHeightAt x z blocks = b.y) := by
  have heq : getTerrainHeightAt x z blocks =
      (columnSolids x z blocks).foldl (fun a b => max a b.y) (-10) :=
    terrain_foldl_filter (jsRound x) (jsRound z) blocks (-10)
  refine ⟨heq, ?_, ?_, ?_, ?_⟩
  · intro hemp
    rw [heq, hemp]
    rfl
  · intro b hb
    rw [heq]
    exact foldl_max_mem_le _ _ b hb
  · rw [heq]
    exact foldl_max_init_le _ _
  · rw [heq]
    exact foldl_max_attained _ _

/-- Concrete instantiation of the amended heightAt theorem: the column
at (0,0) holding a FLOWER (non-solid) block only is empty of solid
blocks, so the sentinel −10 is returned. -/
theorem heightAt_sentinel_or_max_witness :
    getTerrainHeightAt 0 0 [⟨("f"), .FLOWER, 0, 3, 0⟩] = -10 :=
  (heightAt_sentinel_or_max 0 0 [⟨("f"), .FLOWER, 0, 3, 0⟩]).2.1
    (by norm_num [columnSolids, isNonSolid])

/-! ### Dwell machine step lemmas -/

theorem dwellStep_same_nofire (len : ℕ) (dwell now st : ℚ) (i : ℕ)
    (hn fn : Option FaceN) (hi : i < len) (hst : st ≠ 0)
    (h : ¬ 1 ≤ (now - st) / dwell) :
    dwellStep len dwell ⟨now, some (some i, hn)⟩ ⟨some i, some st, fn⟩ =
      ⟨⟨some i, some st, fn⟩, [(true, min ((now - st) / dwell) 1)], none⟩ := by
  have hfire : ¬ (1 ≤ min ((now - st) / dwell) 1) := by
    rw [le_min_iff]
    exact fun hc => h hc.1
  simp [dwellStep, startTimeTruthy, hi, hst, hfire]

theorem dwellStep_same_fire (len : ℕ) (dwell now st : ℚ) (i : ℕ)
    (hn fn : Option FaceN) (hi : i < len) (hst : st ≠ 0)
    (h : 1 ≤ (now - st) / dwell) :
    dwellStep len dwell ⟨now, some (some i, hn)⟩ ⟨some i, some st, fn⟩ =
      ⟨⟨some i, some now, fn⟩, [(true, 1), (false, 0)], some i⟩ := by
  have hfire : 1 ≤ min ((now - st) / dwell) 1 := le_min h (le_refl 1)
  have hmin : min ((now - st) / dwell) 1 = 1 := min_eq_right h
  simp [dwellStep, startTimeTruthy, hi, hst, hfire, hmin]

theorem dwellStep_acquire (len : ℕ) (dwell now : ℚ) (j : ℕ) (hn : Option FaceN)
    (s : InteractionState) (hlen : j < len) (hne : s.targetId ≠ some j)
    (hnow : now ≠ 0) :
    dwellStep len dwell ⟨now, some (some j, hn)⟩ s =
      ⟨⟨some j, some now, hn⟩, [(true, 0)], none⟩ := by
  have hfire : ¬ ((1 : ℚ) ≤ 0) := by norm_num
  simp [dwellStep, startTimeTruthy, hlen, hne, hnow, hfire]

theorem runDwell_trace (dwell : ℚ) (hd : 0 < dwell) (i : ℕ) :
    ∀ (frames : List (ℕ × GazeFrame)) (st : ℚ) (fn : Option FaceN), 0 < st →
      (∀ p ∈ frames, ∃ n, p.2.hit = some (some i, n) ∧ i < p.1) →
      List.Chain' (fun a b => a + dwell ≤ b)
        (runDwell dwell ⟨some i, some st, fn⟩ frames).2 ∧
      (∀ t ∈ (runDwell dwell ⟨some i, some st, fn⟩ frames).2, st + dwell ≤ t) ∧
      (runDwell dwell ⟨some i, some st, fn⟩ frames).1.targetId = some i ∧
      (runDwell dwell ⟨some i, some st, fn⟩ frames).1.startTime =
        some ((runDwell dwell ⟨some i, some st, fn⟩ frames).2.foldl
          (fun _ b => b) st) := by
  intro frames
  induction frames with
  | nil =>
    intro st fn hst hf
    simp [runDwell]
  | cons p rest ih =>
    obtain ⟨len, f⟩ := p
    obtain ⟨now, hit⟩ := f
    intro st fn hst hf
    obtain ⟨n, hhit, hlen⟩ := hf (len, ⟨now, hit⟩) (List.mem_cons_self _ _)
    simp only at hhit hlen
    subst hhit
    have hrest : ∀ p ∈ rest, ∃ n, p.2.hit = some (some i, n) ∧ i < p.1 :=
      fun p hp => hf p (List.mem_cons_of_mem _ hp)
    rcases le_or_lt (st + dwell) now with hfire | hnof
    · have h1 : 1 ≤ (now - st) / dwell := (one_le_div hd).mpr (by linarith)
      have hstep := dwellStep_same_fire len dwell now st i n fn hlen (ne_of_gt hst) h1
      have hnow : 0 < now := by linarith
      obtain ⟨hchain, hlb, htid, hstart⟩ := ih now fn hnow hrest
      simp only [runDwell, hstep, List.singleton_append]
      refine ⟨?_, ?_, htid, ?_⟩
      · rw [List.chain'_cons']
        exact ⟨fun y hy => hlb y (List.mem_of_mem_head? hy), hchain⟩
      · intro t ht
        rcases List.mem_cons.mp ht with h | h
        · subst h; exact hfire
        · have := hlb t h
          linarith
      · simpa using hstart
    · have h1 : ¬ 1 ≤ (now - st) / dwell := by
        intro h
        have := (one_le_div hd).mp h
        linarith
      have hstep := dwellStep_same_nofire len dwell now st i n fn hlen (ne_of_gt hst) h1
      obtain ⟨hchain, hlb, htid, hstart⟩ := ih st fn hst hrest
      simp only [runDwell, hstep]
      exact ⟨hchain, hlb, htid, hstart⟩

/-- Claim C3: while the same target index stays continuously resolved,
the dwell machine fires exactly once per crossing of the dwell duration:
over any run of frames resolving target `i`, consecutive fire times are
at least one full dwell duration apart and the first fire comes no
earlier than one dwell after the timer start; after the run the machine
is still timing the same target, with its timer restarted at the last
fire (auto-repeat); a single frame does fire the action the moment the
threshold is crossed and restarts the timer at that frame, and never
fires before the threshold. -/
theorem dwell_fires_once_per_crossing (dwell : ℚ) (hd : 0 < dwell) (i : ℕ)
    (fn : Option FaceN) (st : ℚ) (hst : 0 < st) :
    (∀ frames : List (ℕ × GazeFrame),
      (∀ p ∈ frames, ∃ n, p.2.hit = some (some i, n) ∧ i < p.1) →
      List.Chain' (fun a b => a + dwell ≤ b)
        (runDwell dwell ⟨some i, some st, fn⟩ frames).2 ∧
      (∀ t ∈ (runDwell dwell ⟨some i, some st, fn⟩ frames).2, st + dwell ≤ t) ∧
      (runDwell dwell ⟨some i, some st, fn⟩ frames).1.targetId = some i ∧
      (runDwell dwell ⟨some i, some st, fn⟩ frames).1.startTime =
        some ((runDwell dwell ⟨some i, some st, fn⟩ frames).2.foldl
          (fun _ b => b) st)) ∧
    (∀ (len : ℕ) (now : ℚ) (hn : Option FaceN), i < len → st + dwell ≤ now →
      (dwellStep len dwell ⟨now, some (some i, hn)⟩
          ⟨some i, some st, fn⟩).fired = some i ∧
      (dwellStep len dwell ⟨now, some (some i, hn)⟩
          ⟨some i, some st, fn⟩).state = ⟨some i, some now, fn⟩) ∧
    (∀ (len : ℕ) (now : ℚ) (hn : Option FaceN), i < len → now < st + dwell →
      (dwellStep len dwell ⟨now, some (some i, hn)⟩
          ⟨some i, some st, fn⟩).fired = none) := by
  refine ⟨fun frames hf => runDwell_trace dwell hd i frames st fn hst hf, ?_, ?_⟩
  · intro len now hn hlen hth
    have h1 : 1 ≤ (now - st) / dwell := (one_le_div hd).mpr (by linarith)
    rw [dwellStep_same_fire len dwell now st i hn fn hlen (ne_of_gt hst) h1]
    exact ⟨rfl, rfl⟩
  · intro len now hn hlen hth
    have h1 : ¬ 1 ≤ (now - st) / dwell := by
      intro h
      have := (one_le_div hd).mp h
      linarith
    rw [dwellStep_same_nofire len dwell now st i hn fn hlen (ne_of_gt hst) h1]

/-- Concrete instantiation of the once-per-crossing theorem: with a
1000 ms dwell, timer started at 500 and frames at 1500 and 2500, the
fire times are exactly one dwell apart, and the single-step conjuncts
fire at 1500 but not at 1499. -/
theorem dwell_fires_once_per_crossing_witness :
    List.Chain' (fun a b => a + 1000 ≤ b)
      (runDwell 1000 ⟨some 0, some 500, none⟩
        [(1, ⟨1500, some (some 0, some (0, 1, 0))⟩),
         (1, ⟨2500, some (some 0, some (0, 1, 0))⟩)]).2 ∧
    (dwellStep 1 1000 ⟨1500, some (some 0, some (0, 1, 0))⟩
        ⟨some 0, some 500, none⟩).fired = some 0 ∧
    (dwellStep 1 1000 ⟨1499, some (some 0, some (0, 1, 0))⟩
        ⟨some 0, some 500, none⟩).fired = none := by
  have h := dwell_fires_once_per_crossing 1000 (by norm_num) 0 none 500 (by norm_num)
  refine ⟨(h.1 _ ?_).1, (h.2.1 1 1500 (some (0, 1, 0)) (by norm_num) (by norm_num)).1,
    h.2.2 1 1499 (some (0, 1, 0)) (by norm_num) (by norm_num)⟩
  intro p hp
  rcases List.mem_cons.mp hp with h1 | h1
  · subst h1; exact ⟨some (0, 1, 0), rfl, by norm_num⟩
  rcases List.mem_cons.mp h1 with h2 | h2
  · subst h2; exact ⟨some (0, 1, 0), rfl, by norm_num⟩
  · exact absurd h2 (List.not_mem_nil p)

/-- Claim C4, counterexample: with a 1000 ms dwell and target index 0
continuously resolved at frames 500, 1500 and 2000, the reported
progress values are 0, then 1 (the threshold frame, which fires and
resets), then 1/2 — the reported progress drops from 1 to 1/2 between
two frames on which the same target stays resolved, so progress is not
monotonically non-decreasing while the same target is continuously
resolved. -/
theorem dwell_progress_cex :
    runReports 1000 ⟨none, none, none⟩
        [(1, ⟨500, some (some 0, some (0, 1, 0))⟩),
         (1, ⟨1500, some (some 0, some (0, 1, 0))⟩),
         (1, ⟨2000, some (some 0, some (0, 1, 0))⟩)] =
      [[(true, 0)], [(true, 1), (false, 0)], [(true, 1/2)]] ∧
    ¬ ((1 : ℚ) ≤ 1/2) := by
  constructor
  · have h1 : dwellStep 1 1000 ⟨500, some (some 0, some (0, 1, 0))⟩
        ⟨none, none, none⟩ =
        ⟨⟨some 0, some 500, some (0, 1, 0)⟩, [(true, 0)], none⟩ :=
      dwellStep_acquire 1 1000 500 0 (some (0, 1, 0)) ⟨none, none, none⟩
        (by norm_num) (by simp) (by norm_num)
    have h2 : dwellStep 1 1000 ⟨1500, some (some 0, some (0, 1, 0))⟩
        ⟨some 0, some 500, some (0, 1, 0)⟩ =
        ⟨⟨some 0, some 1500, some (0, 1, 0)⟩, [(true, 1), (false, 0)], some 0⟩ := by
      have := dwellStep_same_fire 1 1000 1500 500 0 (some (0, 1, 0))
        (some (0, 1, 0)) (by norm_num) (by norm_num) (by norm_num)
      exact this
    have h3 : dwellStep 1 1000 ⟨2000, some (some 0, some (0, 1, 0))⟩
        ⟨some 0, some 1500, some (0, 1, 0)⟩ =
        ⟨⟨some 0, some 1500, some (0, 1, 0)⟩, [(true, 1/2)], none⟩ := by
      have := dwellStep_same_nofire 1 1000 2000 1500 0 (some (0, 1, 0))
        (some (0, 1, 0)) (by norm_num) (by norm_num) (by norm_num)
      rw [this]
      norm_num
    simp [runReports, h1, h2, h3]
  · norm_num

/-- Claim C4 as amended: each frame on which the timed target stays
resolved reports progress `min(elapsed/dwell, 1)`; below the threshold
the machine's record is retained unchanged, and the reported progress is
monotone in the frame time, so progress is non-decreasing across frames
while the same target stays resolved *and no fire intervenes*; the
progress resets to 0 the instant the resolved target changes identity
(fresh timer at the current frame), resets to 0 the instant the target
becomes absent (timer cleared), and additionally resets to 0 immediately
after each fire (fresh timer at the firing frame) — the one correction
to the original claim. -/
theorem dwell_progress_reset (dwell : ℚ) (hd : 0 < dwell) (i : ℕ) (st : ℚ)
    (hst : st ≠ 0) (fn : Option FaceN) :
    (∀ (len : ℕ) (now : ℚ) (hn : Option FaceN), i < len →
      (dwellStep len dwell ⟨now, some (some i, hn)⟩
          ⟨some i, some st, fn⟩).reports.head? =
        some (true, min ((now - st) / dwell) 1)) ∧
    (∀ (len : ℕ) (now : ℚ) (hn : Option FaceN), i < len → now < st + dwell →
      (dwellStep len dwell ⟨now, some (some i, hn)⟩
          ⟨some i, some st, fn⟩).state = ⟨some i, some st, fn⟩) ∧
    (∀ t1 t2 : ℚ, t1 ≤ t2 →
      min ((t1 - st) / dwell) 1 ≤ min ((t2 - st) / dwell) 1) ∧
    (∀ (len : ℕ) (now : ℚ) (hn : Option FaceN) (j : ℕ),
      j < len → j ≠ i → now ≠ 0 →
      (dwellStep len dwell ⟨now, some (some j, hn)⟩
          ⟨some i, some st, fn⟩).reports = [(true, 0)] ∧
      (dwellStep len dwell ⟨now, some (some j, hn)⟩
          ⟨some i, some st, fn⟩).state = ⟨some j, some now, hn⟩) ∧
    (∀ (len : ℕ) (now : ℚ) (s : InteractionState),
      dwellStep len dwell ⟨now, none⟩ s =
        ⟨⟨none, none, s.faceNormal⟩, [(false, 0)], none⟩) ∧
    (∀ (len : ℕ) (now : ℚ) (hn : Option FaceN), i < len → st + dwell ≤ now →
      (dwellStep len dwell ⟨now, some (some i, hn)⟩
          ⟨some i, some st, fn⟩).reports = [(true, 1), (false, 0)] ∧
      (dwellStep len dwell ⟨now, some (some i, hn)⟩
          ⟨some i, some st, fn⟩).state.startTime = some now) := by
  refine ⟨?_, ?_, ?_, ?_, ?_, ?_⟩
  · intro len now hn hlen
    rcases le_or_lt 1 ((now - st) / dwell) with h1 | h1
    · rw [dwellStep_same_fire len dwell now st i hn fn hlen hst h1]
      simp [min_eq_right h1]
    · rw [dwellStep_same_nofire len dwell now st i hn fn hlen hst (not_le.mpr h1)]
      rfl
  · intro len now hn hlen hth
    have h1 : ¬ 1 ≤ (now - st) / dwell := by
      intro h
      have := (one_le_div hd).mp h
      linarith
    rw [dwellStep_same_nofire len dwell now st i hn fn hlen hst h1]
  · intro t1 t2 ht
    have hdiv : (t1 - st) / dwell ≤ (t2 - st) / dwell := by
      apply div_le_div_of_nonneg_right ?_ hd.le
      linarith
    exact min_le_min hdiv (le_refl 1)
  · intro len now hn j hlen hji hnow
    have hne : (⟨some i, some st, fn⟩ : InteractionState).targetId ≠ some j := by
      intro h
      exact hji (Option.some.inj h).symm
    rw [dwellStep_acquire len dwell now j hn ⟨some i, some st, fn⟩ hlen hne hnow]
    exact ⟨rfl, rfl⟩
  · intro len now s
    simp [dwellStep]
  · intro len now hn hlen hth
    have h1 : 1 ≤ (now - st) / dwell := (one_le_div hd).mpr (by linarith)
    rw [dwellStep_same_fire len dwell now st i hn fn hlen hst h1]
    exact ⟨rfl, rfl⟩

/-- Concrete instantiation of the amended progress theorem: losing the
target (no hit) at time 42 clears the record and reports progress 0. -/
theorem dwell_progress_reset_witness :
    dwellStep 3 1000 ⟨42, none⟩ ⟨some 0, some 7, some (0, 1, 0)⟩ =
      ⟨⟨none, none, some (0, 1, 0)⟩, [(false, 0)], none⟩ :=
  (dwell_progress_reset 1000 (by norm_num) 0 7 (by norm_num)
    (some (0, 1, 0))).2.2.2.2.1 3 42 ⟨some 0, some 7, some (0, 1, 0)⟩

/-- Claim C9, counterexample: the machine is already timing target 0
with stored face normal (1,0,0); the next frame's nearest hit on the
same target carries face normal (0,1,0), yet after the frame the exposed
DwellTarget face normal is still (1,0,0) — it is *not* recomputed on
frames where the resolved target identity is unchanged. -/
theorem face_normal_stale_cex :
    (dwellStep 1 1000 ⟨200, some (some 0, some (0, 1, 0))⟩
        ⟨some 0, some 100, some (1, 0, 0)⟩).state.faceNormal =
      some (1, 0, 0) ∧
    (some ((1 : ℚ), (0 : ℚ), (0 : ℚ)) : Option FaceN) ≠ some (0, 1, 0) := by
  constructor
  · have h := dwellStep_same_nofire 1 1000 200 100 0 (some (0, 1, 0))
      (some (1, 0, 0)) (by norm_num) (by norm_num) (by norm_num)
    rw [h]
  · simp only [ne_eq, Option.some.injEq, Prod.mk.injEq, not_and]
    intro h
    exact absurd h (by norm_num)

/-- Claim C9 as amended: the DwellTarget face normal is captured from
the raycast hit only when the resolved target identity changes
(acquisition); on frames where the same target stays resolved the stored
face normal from acquisition is retained, whatever normal this frame's
hit carries, and on no-hit frames it is also retained. -/
theorem face_normal_on_acquire_only (len : ℕ) (dwell now : ℚ) (i : ℕ)
    (hn : Option FaceN) (s : InteractionState) (hlen : i < len) :
    (s.targetId = some i →
      (dwellStep len dwell ⟨now, some (some i, hn)⟩ s).state.faceNormal =
        s.faceNormal) ∧
    (s.targetId ≠ some i → now ≠ 0 →
      (dwellStep len dwell ⟨now, some (some i, hn)⟩ s).state.faceNormal = hn) ∧
    (dwellStep len dwell ⟨now, none⟩ s).state.faceNormal = s.faceNormal := by
  refine ⟨?_, ?_, ?_⟩
  · intro hid
    obtain ⟨tid, st0, fn0⟩ := s
    simp only at hid
    subst hid
    rcases st0 with _ | st
    · simp [dwellStep, startTimeTruthy, hlen]
    · by_cases hst : st = 0
      · simp [dwellStep, startTimeTruthy, hlen, hst]
      · by_cases hfire : 1 ≤ min ((now - st) / dwell) 1
        · simp [dwellStep, startTimeTruthy, hlen, hst, hfire]
        · simp [dwellStep, startTimeTruthy, hlen, hst, hfire]
  · intro hid hnow
    rw [dwellStep_acquire len dwell now i hn s hlen hid hnow]
  · simp [dwellStep]

/-- Concrete instantiation of the acquisition-only theorem: acquiring a
new target captures that frame's hit normal. -/
theorem face_normal_on_acquire_only_witness :
    (dwellStep 1 1000 ⟨200, some (some 0, some (0, 1, 0))⟩
        ⟨none, none, none⟩).state.faceNormal = some (0, 1, 0) :=
  (face_normal_on_acquire_only 1 1000 200 0 (some (0, 1, 0))
    ⟨none, none, none⟩ (by norm_num)).2.1 (by simp) (by norm_num)

/-! ### C6 — vertical terrain following -/

theorem vstep_self (t : ℚ) : vstep t t = t := by
  simp [vstep]

theorem vstep_of_lt (t y : ℚ) (h : y < t) :
    vstep t y = if t < y + 2/10 then t else y + 2/10 := by
  unfold vstep
  rw [if_pos h]

theorem vstep_of_gt (t y : ℚ) (h : t < y) :
    vstep t y = if y - 1/10 < t then t else y - 1/10 := by
  unfold vstep
  rw [if_neg (not_lt.mpr h.le), if_pos h]

theorem vstep_ascend_min (t y : ℚ) (h : y < t) :
    vstep t y = min (y + 2/10) t := by
  rw [vstep_of_lt t y h]
  rcases lt_or_le t (y + 2/10) with h2 | h2
  · rw [if_pos h2]
    exact (min_eq_right h2.le).symm
  · rw [if_neg (not_lt.mpr h2), min_eq_left h2]

theorem vstep_descend_max (t y : ℚ) (h : t < y) :
    vstep t y = max (y - 1/10) t := by
  rw [vstep_of_gt t y h]
  rcases lt_or_le (y - 1/10) t with h2 | h2
  · rw [if_pos h2]
    exact (max_eq_right h2.le).symm
  · rw [if_neg (not_lt.mpr h2), max_eq_left h2]

theorem vstep_le_of_le (t y : ℚ) (h : y ≤ t) : vstep t y ≤ t := by
  unfold vstep
  split_ifs <;> linarith

theorem le_vstep_of_le (t y : ℚ) (h : t ≤ y) : t ≤ vstep t y := by
  unfold vstep
  split_ifs <;> linarith

theorem vstep_le_max (t y : ℚ) : vstep t y ≤ max y t := by
  rcases lt_trichotomy y t with h | h | h
  · rw [vstep_ascend_min t y h]
    exact le_trans (min_le_right _ _) (le_max_right _ _)
  · rw [h, vstep_self]
    exact le_max_right _ _
  · rw [vstep_descend_max t y h]
    exact max_le (le_trans (by linarith) (le_max_left y t)) (le_max_right _ _)

theorem min_le_vstep (t y : ℚ) : min y t ≤ vstep t y := by
  rcases lt_trichotomy y t with h | h | h
  · rw [vstep_ascend_min t y h]
    exact le_min (le_trans (min_le_left y t) (by linarith)) (min_le_right y t)
  · rw [h, vstep_self]
    exact min_le_right _ _
  · rw [vstep_descend_max t y h]
    exact le_trans (min_le_right y t) (le_max_right _ _)

theorem vstep_iter_ascend (t : ℚ) :
    ∀ (n : ℕ) (y : ℚ), y ≤ t → t - y ≤ n * (2/10) → (vstep t)^[n] y = t := by
  intro n
  induction n with
  | zero =>
    intro y h1 h2
    push_cast at h2
    have : y = t := by linarith
    simpa using this
  | succ n ih =>
    intro y h1 h2
    rw [Function.iterate_succ_apply]
    rcases eq_or_lt_of_le h1 with he | hlt
    · rw [he, vstep_self]
      exact ih t (le_refl t) (by rw [sub_self]; positivity)
    · push_cast at h2
      rw [vstep_of_lt t y hlt]
      rcases lt_or_le t (y + 2/10) with h3 | h3
      · rw [if_pos h3]
        exact ih t (le_refl t) (by rw [sub_self]; positivity)
      · rw [if_neg (not_lt.mpr h3)]
        exact ih (y + 2/10) h3 (by push_cast; linarith)

theorem vstep_iter_descend (t : ℚ) :
    ∀ (n : ℕ) (y : ℚ), t ≤ y → y - t ≤ n * (1/10) → (vstep t)^[n] y = t := by
  intro n
  induction n with
  | zero =>
    intro y h1 h2
    push_cast at h2
    have : y = t := by linarith
    simpa using this
  | succ n ih =>
    intro y h1 h2
    rw [Function.iterate_succ_apply]
    rcases eq_or_lt_of_le h1 with he | hlt
    · rw [← he, vstep_self]
      exact ih t (le_refl t) (by rw [sub_self]; positivity)
    · push_cast at h2
      rw [vstep_of_gt t y hlt]
      rcases lt_or_le (y - 1/10) t with h3 | h3
      · rw [if_pos h3]
        exact ih t (le_refl t) (by rw [sub_self]; positivity)
      · rw [if_neg (not_lt.mpr h3)]
        exact ih (y - 1/10) h3 (by push_cast; linarith)

/-- Claim C6: the target height is `max(groundHeight, 1) + 1` (eye
offset 1.0); one vertical tick ascends by the 0.2 step clamped never to
overshoot the target (equivalently, `min(y + 0.2, target)`), or descends
by the smaller 0.1 step clamped never to undershoot (`max(y − 0.1,
target)`); starting at or below the target the avatar never exceeds it
(a fortiori never by more than one ascend step), starting above it never
drops below it; and once the target stops changing, the iterate reaches
the target exactly within any tick budget covering the gap at rate 0.2
from below or 0.1 from above. -/
theorem vertical_follow (x z : ℚ) (blocks : List BlockData) (y t : ℚ) :
    targetYOf x z blocks =
      ((max (if 0 < blocks.length then getTerrainHeightAt x z blocks else -10)
          1 : ℤ) : ℚ) + 1 ∧
    (y < t → vstep t y = min (y + 2/10) t) ∧
    (t < y → vstep t y = max (y - 1/10) t) ∧
    (y ≤ t → vstep t y ≤ t) ∧
    (t ≤ y → t ≤ vstep t y) ∧
    vstep t y ≤ max y t ∧
    min y t ≤ vstep t y ∧
    (∀ n : ℕ, y ≤ t → t - y ≤ n * (2/10) → (vstep t)^[n] y = t) ∧
    (∀ n : ℕ, t ≤ y → y - t ≤ n * (1/10) → (vstep t)^[n] y = t) := by
  refine ⟨?_, vstep_ascend_min t y, vstep_descend_max t y, vstep_le_of_le t y,
    le_vstep_of_le t y, vstep_le_max t y, min_le_vstep t y,
    fun n => vstep_iter_ascend t n y, fun n => vstep_iter_descend t n y⟩
  unfold targetYOf clampedGroundY
  rcases lt_or_le (if 0 < blocks.length then getTerrainHeightAt x z blocks
      else -10) 1 with h | h
  · rw [if_pos h, max_eq_right h.le]
  · rw [if_neg (not_lt.mpr h), max_eq_left h]

/-- Concrete instantiation of the vertical-follow theorem: over the
single GRASS block at (0,4,0) the target height is 5 (= max(4,1) + 1),
and from y = 0 the integrator reaches a target of 5 in 25 ticks of
0.2. -/
theorem vertical_follow_witness :
    targetYOf 0 0 [⟨("g"), .GRASS, 0, 4, 0⟩] = 5 ∧
    (vstep 5)^[25] 0 = 5 := by
  have h := vertical_follow 0 0 [⟨("g"), .GRASS, 0, 4, 0⟩] 0 5
  constructor
  · rw [h.1]
    norm_num [getTerrainHeightAt, terrainScanStep, jsRound, isNonSolid]
  · exact h.2.2.2.2.2.2.2.1 25 (by norm_num) (by norm_num)

/-! ### C7, C8 — locomotion -/

theorem turnDelta_central (screenW mx : ℚ) (h1 : screenW * (2/10) ≤ mx)
    (h2 : mx ≤ screenW - screenW * (2/10)) : turnDelta screenW mx = 0 := by
  simp only [turnDelta]
  rw [if_neg (not_lt.mpr h1), if_neg (not_lt.mpr h2)]

theorem turnDelta_left_linear (screenW mx : ℚ) (hw : 0 < screenW)
    (h : mx < screenW * (2/10)) :
    turnDelta screenW mx =
      rotSpeed * (1/2) +
        rotSpeed / (2 * (screenW * (2/10))) * (screenW * (2/10) - mx) := by
  have hz : (0 : ℚ) < screenW * (2/10) := by positivity
  simp only [turnDelta]
  rw [if_pos h]
  field_simp
  ring

theorem turnDelta_right_linear (screenW mx : ℚ) (hw : 0 < screenW)
    (h : screenW - screenW * (2/10) < mx) :
    turnDelta screenW mx =
      -(rotSpeed * (1/2) +
        rotSpeed / (2 * (screenW * (2/10))) * (mx - (screenW - screenW * (2/10)))) := by
  have hz : (0 : ℚ) < screenW * (2/10) := by positivity
  simp only [turnDelta]
  have hl : ¬ mx < screenW * (2/10) := by
    intro hl
    linarith
  rw [if_neg hl, if_pos h]
  field_simp
  ring

theorem rotSpeed_div_zone_pos (screenW : ℚ) (hw : 0 < screenW) :
    0 < rotSpeed / (2 * (screenW * (2/10))) := by
  have hz : (0 : ℚ) < screenW * (2/10) := by positivity
  rw [rotSpeed]
  positivity

/-- Claim C7: with a positive screen width, the per-frame rotation
change is exactly zero in the central band outside both turn zones;
inside the left zone it is strictly positive and equals the base rate
`rotSpeed/2` plus a term linear in the penetration depth, inside the
right zone it is strictly negative with the mirrored linear profile, and
its magnitude strictly increases as the pointer moves toward either
screen edge. -/
theorem turn_zone_profile (screenW : ℚ) (hw : 0 < screenW) :
    (∀ mx, screenW * (2/10) ≤ mx → mx ≤ screenW - screenW * (2/10) →
      turnDelta screenW mx = 0) ∧
    (∀ mx, mx < screenW * (2/10) →
      turnDelta screenW mx =
        rotSpeed * (1/2) +
          rotSpeed / (2 * (screenW * (2/10))) * (screenW * (2/10) - mx)) ∧
    (∀ mx, mx < screenW * (2/10) → 0 < turnDelta screenW mx) ∧
    (∀ mx, screenW - screenW * (2/10) < mx →
      turnDelta screenW mx =
        -(rotSpeed * (1/2) +
          rotSpeed / (2 * (screenW * (2/10))) *
            (mx - (screenW - screenW * (2/10))))) ∧
    (∀ mx, screenW - screenW * (2/10) < mx → turnDelta screenW mx < 0) ∧
    (∀ mx1 mx2, mx1 < mx2 → mx2 < screenW * (2/10) →
      |turnDelta screenW mx2| < |turnDelta screenW mx1|) ∧
    (∀ mx1 mx2, screenW - screenW * (2/10) < mx1 → mx1 < mx2 →
      |turnDelta screenW mx1| < |turnDelta screenW mx2|) := by
  have hc1 := rotSpeed_div_zone_pos screenW hw
  have hbase : (0 : ℚ) < rotSpeed * (1/2) := by
    rw [rotSpeed]
    norm_num
  have hpos : ∀ mx, mx < screenW * (2/10) → 0 < turnDelta screenW mx := by
    intro mx h
    rw [turnDelta_left_linear screenW mx hw h]
    have := mul_pos hc1 (show (0 : ℚ) < screenW * (2/10) - mx by linarith)
    linarith
  have hneg : ∀ mx, screenW - screenW * (2/10) < mx → turnDelta screenW mx < 0 := by
    intro mx h
    rw [turnDelta_right_linear screenW mx hw h]
    have := mul_pos hc1 (show (0 : ℚ) < mx - (screenW - screenW * (2/10)) by linarith)
    linarith
  refine ⟨fun mx => turnDelta_central screenW mx,
    fun mx => turnDelta_left_linear screenW mx hw, hpos,
    fun mx => turnDelta_right_linear screenW mx hw, hneg, ?_, ?_⟩
  · intro mx1 mx2 h12 h2
    have h1 : mx1 < screenW * (2/10) := lt_trans h12 h2
    rw [abs_of_pos (hpos mx1 h1), abs_of_pos (hpos mx2 h2),
      turnDelta_left_linear screenW mx1 hw h1,
      turnDelta_left_linear screenW mx2 hw h2]
    have := mul_pos hc1 (show (0 : ℚ) < mx2 - mx1 by linarith)
    nlinarith
  · intro mx1 mx2 h1 h12
    have h2 : screenW - screenW * (2/10) < mx2 := lt_trans h1 h12
    rw [abs_of_neg (hneg mx1 h1), abs_of_neg (hneg mx2 h2),
      turnDelta_right_linear screenW mx1 hw h1,
      turnDelta_right_linear screenW mx2 hw h2]
    have := mul_pos hc1 (show (0 : ℚ) < mx2 - mx1 by linarith)
    nlinarith

/-- Concrete instantiation of the turn-zone theorem on a 1000-wide
screen: the rotation change is zero at the center, positive at
mx = 100, negative at mx = 950, and strictly larger in magnitude at
mx = 50 than at mx = 100. -/
theorem turn_zone_profile_witness :
    turnDelta 1000 500 = 0 ∧
    0 < turnDelta 1000 100 ∧
    turnDelta 1000 950 < 0 ∧
    |turnDelta 1000 100| < |turnDelta 1000 50| := by
  have h := turn_zone_profile 1000 (by norm_num)
  exact ⟨h.1 500 (by norm_num) (by norm_num),
    h.2.2.1 100 (by norm_num),
    h.2.2.2.2.1 950 (by norm_num),
    h.2.2.2.2.2.1 50 100 (by norm_num) (by norm_num)⟩

/-- Claim C8, counterexample: two settings objects that disagree on
`moveSpeed` and `turnSpeed` produce identical locomotion updates, and
with facing direction (0,1) (rotation 0) the walking displacement along
z is the hardcoded 0.04 per tick, not the configured `moveSpeed` 0.1 —
the locomotion update does not read its speeds from the settings
object. -/
theorem speeds_not_from_settings_cex :
    locomotionStep ⟨1000, 48, false, 1/10, 3/100⟩ 1000 500 (0, 0) 0 true 0 1 =
      locomotionStep ⟨500, 24, true, 2/10, 6/100⟩ 1000 500 (0, 0) 0 true 0 1 ∧
    (locomotionStep ⟨1000, 48, false, 1/10, 3/100⟩ 1000 500 (0, 0) 0
        true 0 1).1.2 = 4/100 ∧
    ¬ ((4 : ℚ)/100 =
        (⟨1000, 48, false, 1/10, 3/100⟩ : GameSettings).moveSpeed * 1) ∧
    (⟨1000, 48, false, 1/10, 3/100⟩ : GameSettings).moveSpeed ≠
      (⟨500, 24, true, 2/10, 6/100⟩ : GameSettings).moveSpeed ∧
    (⟨1000, 48, false, 1/10, 3/100⟩ : GameSettings).turnSpeed ≠
      (⟨500, 24, true, 2/10, 6/100⟩ : GameSettings).turnSpeed := by
  refine ⟨rfl, ?_, by norm_num, by norm_num, by norm_num⟩
  norm_num [locomotionStep, turnDelta, speed]

/-- Claim C8 as amended: the locomotion update is independent of the
settings object — walking advances the position by the fixed constant
0.04 (not `settings.moveSpeed`) along the facing direction, and the
rotation change is `turnDelta`, whose rate is the fixed constant 0.008
(not `settings.turnSpeed`); two arbitrary settings objects always yield
the same update. -/
theorem speeds_are_constants (s1 s2 : GameSettings) (screenW mx : ℚ)
    (pos : ℚ × ℚ) (rot : ℚ) (isWalking : Bool) (sinNextRot cosNextRot : ℚ) :
    locomotionStep s1 screenW mx pos rot isWalking sinNextRot cosNextRot =
      locomotionStep s2 screenW mx pos rot isWalking sinNextRot cosNextRot ∧
    (locomotionStep s1 screenW mx pos rot true sinNextRot cosNextRot).1 =
      (pos.1 + sinNextRot * (4/100), pos.2 + cosNextRot * (4/100)) ∧
    (locomotionStep s1 screenW mx pos rot isWalking sinNextRot cosNextRot).2 =
      rot + turnDelta screenW mx := by
  refine ⟨rfl, ?_, rfl⟩
  simp [locomotionStep, speed]

end GazeCraft
